import Mathlib

/-!
# Arithmetic module (`src/math_utils.c`)

A shallow embedding of the ten functions of `math_utils.c`.

* A C `int` is an `Int` lying in `[INT_MIN, INT_MAX]` (predicate `IsInt32`).
* Every arithmetic operator of the source (`+`, `-`, `*`, unary `-`, `++`, `*=`) is
  followed by `wrap32`, the two's-complement truncation to 32 bits: overflow wraps,
  as the specification of the module assumes.
* The two `for` loops are functions of a fuel argument that counts the
  evaluations of the loop condition: `none` means that the fuel ran out
  before the loop condition became false.
-/

namespace MathUtils

/-! ## Machine integers -/

/-- Smallest value of a 32-bit signed `int`. -/
def INT_MIN : Int := -2147483648

/-- Largest value of a 32-bit signed `int`. -/
def INT_MAX : Int := 2147483647

/-- The values a C `int` can hold. -/
def IsInt32 (x : Int) : Prop := INT_MIN ≤ x ∧ x ≤ INT_MAX

instance (x : Int) : Decidable (IsInt32 x) := by
  unfold IsInt32; infer_instance

/-- Two's-complement truncation of an unbounded integer to 32 bits. -/
def wrap32 (x : Int) : Int := (x + 2147483648) % 4294967296 - 2147483648

/-! ## The functions of `math_utils.c` -/

/-- Source: `int add(int a, int b) { return a + b; }` -/
def add (a b : Int) : Int := wrap32 (a + b)

/-- Source: `int subtract(int a, int b) { return a - b; }` -/
def subtract (a b : Int) : Int := wrap32 (a - b)

/-- Source: `int multiply(int a, int b) { return a * b; }` -/
def multiply (a b : Int) : Int := wrap32 (a * b)

/-- Source: `int abs_value(int x) { if (x < 0) { return -x; } return x; }` -/
def abs_value (x : Int) : Int :=
  if x < 0 then wrap32 (-x) else x

/-- Source: `int max_value(int a, int b) { if (a > b) { return a; } return b; }` -/
def max_value (a b : Int) : Int :=
  if a > b then a else b

/-- Source: `int min_value(int a, int b) { if (a < b) { return a; } return b; }` -/
def min_value (a b : Int) : Int :=
  if a < b then a else b

/-- Source: `int is_even(int x) { return x % 2 == 0; }`, with C's truncating `%`. -/
def is_even (x : Int) : Int :=
  if Int.tmod x 2 = 0 then 1 else 0

/-- Source: `int is_positive(int x) { return x > 0; }` -/
def is_positive (x : Int) : Int :=
  if x > 0 then 1 else 0

/-- The loop `for (int i = 2; i <= n; i++) { result *= i; }` of `factorial`,
started in the state `(i, result)`; the value is the `result` at loop exit. -/
def factorialLoop : Nat → Int → Int → Int → Option Int
  | 0, _, _, _ => none
  | fuel + 1, n, i, result =>
    if i ≤ n then factorialLoop fuel n (wrap32 (i + 1)) (wrap32 (result * i))
    else some result

/-- The function `factorial` of `math_utils.c`. -/
def factorial (fuel : Nat) (n : Int) : Option Int :=
  if n < 0 then some (-1)
  else if n = 0 ∨ n = 1 then some 1
  else factorialLoop fuel n 2 1

/-- The loop `for (int i = 2; i <= n; i++) { int temp = a + b; a = b; b = temp; }`
of `fibonacci`, started in the state `(i, a, b)`; the value is `b` at loop exit. -/
def fibonacciLoop : Nat → Int → Int → Int → Int → Option Int
  | 0, _, _, _, _ => none
  | fuel + 1, n, i, a, b =>
    if i ≤ n then fibonacciLoop fuel n (wrap32 (i + 1)) b (wrap32 (a + b))
    else some b

/-- The function `fibonacci` of `math_utils.c`. -/
def fibonacci (fuel : Nat) (n : Int) : Option Int :=
  if n < 0 then some (-1)
  else if n = 0 then some 0
  else if n = 1 then some 1
  else fibonacciLoop fuel n 2 0 1

/-- The call `factorial(n)` returns `r`. -/
def factorialReturns (n r : Int) : Prop := ∃ fuel, factorial fuel n = some r

/-- The call `fibonacci(n)` returns `r`. -/
def fibonacciReturns (n r : Int) : Prop := ∃ fuel, fibonacci fuel n = some r

/-! ## Mathematical reference functions -/

/-- The factorial as the specification words it: `0! = 1`, `n! = n * (n-1)!`. -/
def specFactorial : Nat → Nat
  | 0 => 1
  | n + 1 => (n + 1) * specFactorial n

/-- The Fibonacci numbers as the specification words them:
`F(0) = 0`, `F(1) = 1`, `F(k) = F(k-1) + F(k-2)`. -/
def specFib : Nat → Nat
  | 0 => 0
  | 1 => 1
  | n + 2 => specFib (n + 1) + specFib n

/-! ## Truncation to 32 bits -/

theorem wrap32_of_isInt32 {x : Int} (h : IsInt32 x) : wrap32 x = x := by
  unfold IsInt32 INT_MIN INT_MAX at h
  unfold wrap32
  omega

theorem isInt32_wrap32 (x : Int) : IsInt32 (wrap32 x) := by
  unfold IsInt32 INT_MIN INT_MAX wrap32
  omega

theorem wrap32_add_wrap32 (a b : Int) : wrap32 (wrap32 a + wrap32 b) = wrap32 (a + b) := by
  unfold wrap32
  omega

theorem wrap32_eq_sub (x : Int) :
    wrap32 x = x - 4294967296 * ((x + 2147483648) / 4294967296) := by
  unfold wrap32
  omega

theorem wrap32_add_mul (x k : Int) : wrap32 (x + 4294967296 * k) = wrap32 x := by
  unfold wrap32
  omega

theorem wrap32_mul_left (a b : Int) : wrap32 (wrap32 a * b) = wrap32 (a * b) := by
  rw [wrap32_eq_sub a]
  have : (a - 4294967296 * ((a + 2147483648) / 4294967296)) * b
      = a * b + 4294967296 * (-((a + 2147483648) / 4294967296) * b) := by ring
  rw [this, wrap32_add_mul]

theorem wrap32_even_mul (r i : Int) (h : 2 ∣ r) : 2 ∣ wrap32 (r * i) := by
  have h2 : (2:Int) ∣ r * i := Dvd.dvd.mul_right h i
  generalize r * i = y at h2
  unfold wrap32
  omega

/-! ## The loop of `factorial` -/

/-- Once the running product is even it stays even until the loop exits. -/
theorem factorialLoop_even : ∀ (fuel : Nat) (n i r v : Int),
    2 ∣ r → factorialLoop fuel n i r = some v → 2 ∣ v
  | 0, _, _, _, _, _, h => by simp [factorialLoop] at h
  | fuel + 1, n, i, r, v, hr, h => by
    unfold factorialLoop at h
    split at h
    · exact factorialLoop_even fuel n _ _ v (wrap32_even_mul r i hr) h
    · cases h; exact hr

/-- More fuel does not change a result already reached. -/
theorem factorialLoop_mono : ∀ (fuel : Nat) (n i r v : Int),
    factorialLoop fuel n i r = some v → factorialLoop (fuel + 1) n i r = some v
  | 0, _, _, _, _, h => by simp [factorialLoop] at h
  | fuel + 1, n, i, r, v, h => by
    unfold factorialLoop at h ⊢
    split at h
    · rename_i hi
      rw [if_pos hi]
      exact factorialLoop_mono fuel n _ _ v h
    · rename_i hi
      rw [if_neg hi]; exact h

theorem factorialLoop_terminates : ∀ (k : Nat) (n i r : Int),
    n < INT_MAX → 2 ≤ i → i + k = n + 1 → ∃ v, factorialLoop (k + 1) n i r = some v
  | 0, n, i, r, _, _, hk => by
    refine ⟨r, ?_⟩
    unfold factorialLoop
    rw [if_neg (by omega)]
  | k + 1, n, i, r, hn, hi, hk => by
    unfold factorialLoop
    have hle : i ≤ n := by omega
    rw [if_pos hle]
    have hw : wrap32 (i + 1) = i + 1 := by
      apply wrap32_of_isInt32
      unfold INT_MAX at hn
      unfold IsInt32 INT_MIN INT_MAX
      omega
    rw [hw]
    exact factorialLoop_terminates k n (i + 1) _ hn (by omega) (by omega)

theorem factorialLoop_diverges : ∀ (fuel : Nat) (i r : Int),
    IsInt32 i → factorialLoop fuel INT_MAX i r = none
  | 0, _, _, _ => by simp [factorialLoop]
  | fuel + 1, i, r, hi => by
    unfold factorialLoop
    rw [if_pos hi.2]
    exact factorialLoop_diverges fuel _ _ (isInt32_wrap32 _)

/-! ## The loop of `fibonacci` -/

theorem specFib_eq_fib : ∀ n : Nat, specFib n = Nat.fib n
  | 0 => rfl
  | 1 => rfl
  | n + 2 => by
    rw [specFib, specFib_eq_fib (n + 1), specFib_eq_fib n, Nat.fib_add_two]
    omega

theorem specFib_add_two (n : Nat) : specFib (n + 2) = specFib (n + 1) + specFib n := by
  rw [specFib]

theorem fibonacciLoop_mono : ∀ (fuel : Nat) (n i a b v : Int),
    fibonacciLoop fuel n i a b = some v → fibonacciLoop (fuel + 1) n i a b = some v
  | 0, _, _, _, _, _, h => by simp [fibonacciLoop] at h
  | fuel + 1, n, i, a, b, v, h => by
    unfold fibonacciLoop at h ⊢
    split at h
    · rename_i hi
      rw [if_pos hi]
      exact fibonacciLoop_mono fuel n _ _ _ v h
    · rename_i hi
      rw [if_neg hi]; exact h

theorem fibonacciLoop_mono_add (d fuel : Nat) (n i a b v : Int)
    (h : fibonacciLoop fuel n i a b = some v) : fibonacciLoop (fuel + d) n i a b = some v := by
  induction d with
  | zero => exact h
  | succ d ih => exact fibonacciLoop_mono _ _ _ _ _ _ ih

theorem fibonacciLoop_diverges : ∀ (fuel : Nat) (i a b : Int),
    IsInt32 i → fibonacciLoop fuel INT_MAX i a b = none
  | 0, _, _, _, _ => by simp [fibonacciLoop]
  | fuel + 1, i, a, b, hi => by
    unfold fibonacciLoop
    rw [if_pos hi.2]
    exact fibonacciLoop_diverges fuel _ _ _ (isInt32_wrap32 _)

/-- Loop invariant of `fibonacci`: entering the loop test with counter `i` and
`a = F(i-2)`, `b = F(i-1)` (truncated), the loop exits with `b = F(n)` (truncated). -/
theorem fibonacciLoop_spec : ∀ (k j : Nat) (n : Int),
    n < INT_MAX → ((j : Int) + 2) + k = n + 1 →
    fibonacciLoop (k + 1) n ((j : Int) + 2) (wrap32 (specFib j)) (wrap32 (specFib (j + 1)))
      = some (wrap32 (specFib (j + 1 + k)))
  | 0, j, n, _, hk => by
    unfold fibonacciLoop
    rw [if_neg (by omega)]
  | k + 1, j, n, hn, hk => by
    unfold fibonacciLoop
    have hle : (j : Int) + 2 ≤ n := by omega
    rw [if_pos hle]
    have hw : wrap32 ((j : Int) + 2 + 1) = ((j + 1 : Nat) : Int) + 2 := by
      rw [wrap32_of_isInt32]
      · push_cast; ring
      · unfold INT_MAX at hn
        unfold IsInt32 INT_MIN INT_MAX
        omega
    have hs : wrap32 (wrap32 (specFib j) + wrap32 (specFib (j + 1)))
        = wrap32 (specFib (j + 1 + 1)) := by
      rw [wrap32_add_wrap32, specFib_add_two]
      push_cast
      rw [add_comm]
    rw [hw, hs]
    have h := fibonacciLoop_spec k (j + 1) n hn (by push_cast; omega)
    have e : j + 1 + 1 + k = j + 1 + (k + 1) := by omega
    rw [e] at h
    exact h

/-- Value of `fibonacci` on every input on which the loop can exit. -/
theorem fibonacci_eq (n : Nat) (hn : (n : Int) < INT_MAX) :
    fibonacci n n = some (wrap32 (specFib n)) := by
  match n, hn with
  | 0, _ => rfl
  | 1, _ => rfl
  | m + 2, hn =>
    unfold fibonacci
    rw [if_neg (by push_cast; omega), if_neg (by push_cast; omega),
      if_neg (by push_cast; omega)]
    have h := fibonacciLoop_spec (m + 1) 0 ((m + 2 : Nat) : Int) hn (by push_cast; omega)
    have e0 : wrap32 ((specFib 0 : Nat) : Int) = 0 := by decide
    have e1 : wrap32 ((specFib (0 + 1) : Nat) : Int) = 1 := by decide
    have e2 : ((0 : Nat) : Int) + 2 = 2 := by norm_num
    have e3 : 0 + 1 + (m + 1) = m + 2 := by omega
    rw [e0, e1, e2, e3] at h
    exact h

/-! ## Fibonacci numbers modulo powers of two -/

/-- If `M` divides `F(p)` and `F(p+1) - 1`, then `p` is a period of `F` modulo `M`. -/
theorem specFib_period_step (M : Int) (p : Nat)
    (h0 : M ∣ (specFib p : Int)) (h1 : M ∣ (specFib (p + 1) : Int) - 1) :
    ∀ n : Nat, M ∣ (specFib (n + p) : Int) - specFib n
  | 0 => by simpa [specFib] using h0
  | n + 1 => by
    have h := Nat.fib_add n p
    rw [← specFib_eq_fib, ← specFib_eq_fib, ← specFib_eq_fib, ← specFib_eq_fib,
      ← specFib_eq_fib] at h
    have e : n + 1 + p = n + p + 1 := by omega
    rw [e, h]
    push_cast
    have : (specFib n : Int) * specFib p + specFib (n + 1) * specFib (p + 1) - specFib (n + 1)
        = specFib n * specFib p + specFib (n + 1) * (specFib (p + 1) - 1) := by ring
    rw [this]
    exact dvd_add (Dvd.dvd.mul_left h0 _) (Dvd.dvd.mul_left h1 _)

theorem specFib_period_mul (M : Int) (p : Nat)
    (h0 : M ∣ (specFib p : Int)) (h1 : M ∣ (specFib (p + 1) : Int) - 1) (n : Nat) :
    ∀ s : Nat, M ∣ (specFib (n + p * s) : Int) - specFib n
  | 0 => by simp
  | s + 1 => by
    have a := specFib_period_step M p h0 h1 (n + p * s)
    have b := specFib_period_mul M p h0 h1 n s
    have e : n + p * (s + 1) = n + p * s + p := by ring
    rw [e]
    have := dvd_add a b
    simpa using this

/-- Doubling formulas for the Fibonacci numbers, over the integers. -/
theorem specFib_double (m : Nat) :
    (specFib (2 * m) : Int) = specFib m * (2 * specFib (m + 1) - specFib m) ∧
    (specFib (2 * m + 1) : Int) = specFib (m + 1) ^ 2 + specFib m ^ 2 := by
  have h1 := Nat.fib_add m m
  have h2 := Nat.fib_add m (m + 1)
  rw [← specFib_eq_fib, ← specFib_eq_fib, ← specFib_eq_fib] at h1
  rw [← specFib_eq_fib, ← specFib_eq_fib, ← specFib_eq_fib, ← specFib_eq_fib] at h2
  have e1 : m + m + 1 = 2 * m + 1 := by omega
  have e2 : m + (m + 1) + 1 = 2 * m + 2 := by omega
  have e3 : m + 1 + 1 = m + 2 := by omega
  rw [e1] at h1
  rw [e2, e3, specFib_add_two, specFib_add_two] at h2
  have h1' : (specFib (2 * m + 1) : Int) = specFib m * specFib m
      + specFib (m + 1) * specFib (m + 1) := by exact_mod_cast h1
  have h2' : (specFib (2 * m + 1) : Int) + specFib (2 * m) = specFib m * specFib (m + 1)
      + specFib (m + 1) * (specFib (m + 1) + specFib m) := by exact_mod_cast h2
  constructor
  · linear_combination h2' - h1'
  · linear_combination h1'

/-- Values of `F` at `3 * 2^(j+1)` and the next index, modulo `2^(j+3)`. -/
theorem specFib_three_mul_two_pow : ∀ j : Nat, ∃ u v : Int,
    (specFib (3 * 2 ^ (j + 1)) : Int) = 2 ^ (j + 3) * u ∧
    (specFib (3 * 2 ^ (j + 1) + 1) : Int) = 1 + 2 ^ (j + 2) + 2 ^ (j + 3) * v
  | 0 => ⟨1, 1, by decide, by decide⟩
  | j + 1 => by
    obtain ⟨u, v, hu, hv⟩ := specFib_three_mul_two_pow j
    obtain ⟨d0, d1⟩ := specFib_double (3 * 2 ^ (j + 1))
    have e : 3 * 2 ^ (j + 1 + 1) = 2 * (3 * 2 ^ (j + 1)) := by ring
    rw [e, d0, d1, hu, hv]
    refine ⟨u * (1 + 2 ^ (j + 2) + 2 ^ (j + 3) * v - 2 ^ (j + 2) * u),
      v + 2 ^ j * (1 + 2 * v) ^ 2 + 2 ^ (j + 2) * u ^ 2, ?_, ?_⟩
    · ring
    · ring

/-- Modulo 4 the Fibonacci numbers are `-1` only at indices `≡ 4 (mod 6)`. -/
theorem specFib_mod_four (n : Nat) (h : (4 : Int) ∣ (specFib n : Int) + 1) : 6 ∣ n + 2 := by
  have hp := specFib_period_mul 4 6 (by decide) (by decide) (n % 6) (n / 6)
  have e : n % 6 + 6 * (n / 6) = n := Nat.mod_add_div n 6
  rw [e] at hp
  have h2 : (4 : Int) ∣ (specFib (n % 6) : Int) + 1 := by
    have := dvd_sub h hp
    have e2 : (specFib n : Int) + 1 - (specFib n - specFib (n % 6)) = specFib (n % 6) + 1 := by
      ring
    rwa [e2] at this
  have hlt : n % 6 < 6 := Nat.mod_lt n (by decide)
  have h4 : n % 6 = 4 := by
    generalize n % 6 = r at h2 hlt
    interval_cases r <;> first | rfl | (exfalso; revert h2; decide)
  omega

/-- Modulo `2^(k+2)` the Fibonacci numbers are `-1` only at indices
`≡ -2 (mod 3 * 2^(k+1))`. -/
theorem specFib_eq_neg_one_mod : ∀ (k n : Nat),
    (2 : Int) ^ (k + 2) ∣ (specFib n : Int) + 1 → 3 * 2 ^ (k + 1) ∣ n + 2
  | 0, n, h => by
    have := specFib_mod_four n (by simpa using h)
    simpa using this
  | k + 1, n, h => by
    have hk : (2 : Int) ^ (k + 2) ∣ (specFib n : Int) + 1 :=
      dvd_trans (pow_dvd_pow 2 (by omega)) h
    obtain ⟨t, ht⟩ := specFib_eq_neg_one_mod k n hk
    rcases Nat.even_or_odd' t with ⟨s, hs | hs⟩
    · exact ⟨s, by rw [ht, hs]; ring⟩
    · exfalso
      obtain ⟨u, v, hu, hv⟩ := specFib_three_mul_two_pow k
      obtain ⟨u', v', hu', hv'⟩ := specFib_three_mul_two_pow (k + 1)
      -- `m = 3 * 2^(k+1)` is at least 6; write it `m' + 2`
      obtain ⟨m', hm'⟩ : ∃ m', 3 * 2 ^ (k + 1) = m' + 2 := by
        have : 2 ≤ 2 ^ (k + 1) := by
          calc 2 = 2 ^ 1 := by norm_num
            _ ≤ 2 ^ (k + 1) := Nat.pow_le_pow_right (by norm_num) (by omega)
        exact ⟨3 * 2 ^ (k + 1) - 2, by omega⟩
      have hn : n = m' + 3 * 2 ^ (k + 1 + 1) * s := by
        have : 3 * 2 ^ (k + 1 + 1) = 2 * (3 * 2 ^ (k + 1)) := by ring
        rw [this, hm']
        rw [hm', hs] at ht
        have : (m' + 2) * (2 * s + 1) = m' + 2 * (m' + 2) * s + 2 := by ring
        omega
      have hper := specFib_period_mul ((2 : Int) ^ (k + 3)) (3 * 2 ^ (k + 1 + 1))
        ⟨2 * u', by rw [hu']; ring⟩ ⟨1 + 2 * v', by rw [hv']; ring⟩ m' s
      rw [← hn] at hper
      -- `F(m')` from `F(m' + 2)` and `F(m' + 3)`
      have a2 := specFib_add_two m'
      have a3 := specFib_add_two (m' + 1)
      rw [hm'] at hu hv
      have hm : (specFib m' : Int) = 2 * specFib (m' + 2) - specFib (m' + 2 + 1) := by
        rw [show m' + 2 + 1 = m' + 1 + 2 from rfl, a3, a2]
        push_cast; ring
      rw [hu, hv] at hm
      have hdiff : (2 : Int) ^ (k + 3) ∣ (specFib m' : Int) + 1 := by
        have := dvd_sub h hper
        have e2 : (specFib n : Int) + 1 - (specFib n - specFib m') = specFib m' + 1 := by ring
        rw [show k + 1 + 2 = k + 3 from rfl, e2] at this
        exact this
      rw [hm] at hdiff
      obtain ⟨c, hc⟩ := hdiff
      have hc2 : (2 : Int) ^ (k + 2) * (2 * (2 * u - v - c) - 1) = 0 := by
        linear_combination hc
      have hpos : (2 : Int) ^ (k + 2) ≠ 0 := pow_ne_zero _ (by norm_num)
      rcases mul_eq_zero.mp hc2 with h0 | h0
      · exact hpos h0
      · omega

/-- No Fibonacci number with index below `2^31 - 1` is `-1` modulo `2^32`. -/
theorem specFib_ne_neg_one (n : Nat) (hn : n < 2147483647) :
    ¬ (4294967296 : Int) ∣ (specFib n : Int) + 1 := by
  intro h
  have h2 := specFib_eq_neg_one_mod 30 n (by norm_num; exact h)
  have h3 : 3 * 2 ^ (30 + 1) ≤ n + 2 := Nat.le_of_dvd (by omega) h2
  norm_num at h3
  omega

/-! ## Results of `factorial` and `fibonacci` -/

theorem factorialLoop_mono_add (d fuel : Nat) (n i r v : Int)
    (h : factorialLoop fuel n i r = some v) : factorialLoop (fuel + d) n i r = some v := by
  induction d with
  | zero => exact h
  | succ d ih => exact factorialLoop_mono _ _ _ _ _ ih

/-- The result of `factorial` does not depend on the fuel that was enough to reach it. -/
theorem factorial_det {n r r' : Int} {f f' : Nat}
    (h : factorial f n = some r) (h' : factorial f' n = some r') : r = r' := by
  unfold factorial at h h'
  by_cases c1 : n < 0
  · rw [if_pos c1] at h h'
    exact Option.some.inj (h.symm.trans h')
  · rw [if_neg c1] at h h'
    by_cases c2 : n = 0 ∨ n = 1
    · rw [if_pos c2] at h h'
      exact Option.some.inj (h.symm.trans h')
    · rw [if_neg c2] at h h'
      have a := factorialLoop_mono_add f' _ _ _ _ _ h
      have b := factorialLoop_mono_add f _ _ _ _ _ h'
      rw [Nat.add_comm] at b
      exact Option.some.inj (a.symm.trans b)

/-- The result of `fibonacci` does not depend on the fuel that was enough to reach it. -/
theorem fibonacci_det {n r r' : Int} {f f' : Nat}
    (h : fibonacci f n = some r) (h' : fibonacci f' n = some r') : r = r' := by
  unfold fibonacci at h h'
  by_cases c1 : n < 0
  · rw [if_pos c1] at h h'
    exact Option.some.inj (h.symm.trans h')
  · rw [if_neg c1] at h h'
    by_cases c2 : n = 0
    · rw [if_pos c2] at h h'
      exact Option.some.inj (h.symm.trans h')
    · rw [if_neg c2] at h h'
      by_cases c3 : n = 1
      · rw [if_pos c3] at h h'
        exact Option.some.inj (h.symm.trans h')
      · rw [if_neg c3] at h h'
        have a := fibonacciLoop_mono_add f' _ _ _ _ _ _ h
        have b := fibonacciLoop_mono_add f _ _ _ _ _ _ h'
        rw [Nat.add_comm] at b
        exact Option.some.inj (a.symm.trans b)

/-- Termination of `factorial` with fuel `n` on every input below `INT_MAX`. -/
theorem factorial_terminates (n : Int) (h : n < INT_MAX) :
    ∃ r, factorial n.toNat n = some r := by
  unfold factorial
  split
  · exact ⟨_, rfl⟩
  · split
    · exact ⟨_, rfl⟩
    · have h2 : 2 ≤ n := by omega
      obtain ⟨k, hk⟩ : ∃ k : Nat, n.toNat = k + 1 := ⟨n.toNat - 1, by omega⟩
      rw [hk]
      exact factorialLoop_terminates k n 2 1 h (by norm_num) (by omega)

theorem specFactorial_succ (n : Nat) :
    specFactorial (n + 1) = (n + 1) * specFactorial n := by
  rw [specFactorial]

/-- Loop invariant of `factorial`: entering the loop test with counter `i` and
`result = (i-1)!` (truncated), the loop exits with `result = n!` (truncated). -/
theorem factorialLoop_spec : ∀ (k j : Nat) (n : Int),
    n < INT_MAX → ((j : Int) + 2) + k = n + 1 →
    factorialLoop (k + 1) n ((j : Int) + 2) (wrap32 (specFactorial (j + 1)))
      = some (wrap32 (specFactorial (j + 1 + k)))
  | 0, j, n, _, hk => by
    unfold factorialLoop
    rw [if_neg (by omega)]
  | k + 1, j, n, hn, hk => by
    unfold factorialLoop
    have hle : (j : Int) + 2 ≤ n := by omega
    rw [if_pos hle]
    have hw : wrap32 ((j : Int) + 2 + 1) = ((j + 1 : Nat) : Int) + 2 := by
      rw [wrap32_of_isInt32]
      · push_cast; ring
      · unfold INT_MAX at hn
        unfold IsInt32 INT_MIN INT_MAX
        omega
    have hs : wrap32 (wrap32 (specFactorial (j + 1)) * ((j : Int) + 2))
        = wrap32 (specFactorial (j + 1 + 1)) := by
      have harg : ((specFactorial (j + 1) : Nat) : Int) * ((j : Int) + 2)
          = (((j + 1 + 1) * specFactorial (j + 1) : Nat) : Int) := by
        push_cast; ring
      rw [wrap32_mul_left, specFactorial_succ (j + 1), harg]
    rw [hw, hs]
    have h := factorialLoop_spec k (j + 1) n hn (by push_cast; omega)
    have e : j + 1 + 1 + k = j + 1 + (k + 1) := by omega
    rw [e] at h
    exact h

/-- Value of `factorial` on every input on which the loop can exit. -/
theorem factorial_eq (n : Nat) (hn : (n : Int) < INT_MAX) :
    factorial n n = some (wrap32 (specFactorial n)) := by
  match n, hn with
  | 0, _ => rfl
  | 1, _ => rfl
  | m + 2, hn =>
    unfold factorial
    rw [if_neg (by push_cast; omega), if_neg (by push_cast; omega)]
    have h := factorialLoop_spec (m + 1) 0 ((m + 2 : Nat) : Int) hn (by push_cast; omega)
    have e1 : wrap32 ((specFactorial (0 + 1) : Nat) : Int) = 1 := by decide
    have e2 : ((0 : Nat) : Int) + 2 = 2 := by norm_num
    have e3 : 0 + 1 + (m + 1) = m + 2 := by omega
    rw [e1, e2, e3] at h
    exact h

/-- Value of `factorial` on a non-negative `int` below `INT_MAX`. -/
theorem factorial_eq_int (n : Int) (h0 : 0 ≤ n) (h : n < INT_MAX) :
    factorial n.toNat n = some (wrap32 (specFactorial n.toNat)) := by
  have e : ((n.toNat : Nat) : Int) = n := Int.toNat_of_nonneg h0
  have := factorial_eq n.toNat (by rw [e]; exact h)
  rw [e] at this
  exact this

theorem factorial_INT_MAX (fuel : Nat) : factorial fuel INT_MAX = none := by
  unfold factorial
  rw [if_neg (by decide), if_neg (by decide)]
  exact factorialLoop_diverges fuel 2 1 (by decide)

theorem fibonacci_INT_MAX (fuel : Nat) : fibonacci fuel INT_MAX = none := by
  unfold fibonacci
  rw [if_neg (by decide), if_neg (by decide), if_neg (by decide)]
  exact fibonacciLoop_diverges fuel 2 0 1 (by decide)

/-- Value of `fibonacci` on a non-negative `int` below `INT_MAX`. -/
theorem fibonacci_eq_int (n : Int) (h0 : 0 ≤ n) (h : n < INT_MAX) :
    fibonacci n.toNat n = some (wrap32 (specFib n.toNat)) := by
  have e : ((n.toNat : Nat) : Int) = n := Int.toNat_of_nonneg h0
  have := fibonacci_eq n.toNat (by rw [e]; exact h)
  rw [e] at this
  exact this

/-- A result of `factorial` on an input `n ≥ 2` is even. -/
theorem factorial_even (fuel : Nat) (n r : Int) (h2 : 2 ≤ n)
    (h : factorial fuel n = some r) : 2 ∣ r := by
  unfold factorial at h
  rw [if_neg (by omega), if_neg (by omega)] at h
  cases fuel with
  | zero => simp [factorialLoop] at h
  | succ f =>
    unfold factorialLoop at h
    rw [if_pos h2] at h
    exact factorialLoop_even f n _ _ r (by decide) h

theorem wrap32_eq_neg_one {x : Int} (h : wrap32 x = -1) : (4294967296 : Int) ∣ x + 1 := by
  unfold wrap32 at h
  omega

theorem specFactorial_nonneg_of_le_16 (m : Nat) (h : m ≤ 16) :
    0 ≤ wrap32 (specFactorial m) := by
  interval_cases m <;> decide

theorem specFactorial_le_of_le_12 (m : Nat) (h : m ≤ 12) : specFactorial m ≤ 479001600 := by
  interval_cases m <;> decide

theorem specFib_le_of_le_46 (m : Nat) (h : m ≤ 46) : specFib m ≤ 1836311903 := by
  interval_cases m <;> decide

/-- Termination of `fibonacci` with fuel `n` on every input below `INT_MAX`. -/
theorem fibonacci_terminates (n : Int) (h : n < INT_MAX) :
    ∃ r, fibonacci n.toNat n = some r := by
  by_cases c1 : n < 0
  · exact ⟨-1, by unfold fibonacci; rw [if_pos c1]⟩
  · exact ⟨_, fibonacci_eq_int n (by omega) h⟩


/-! ## The claims -/

/-! ## C1 -/

/-- C1, evaluated at the failing input: on `a = INT_MIN = -2^31` the negation wraps back to
`INT_MIN`, so `abs_value` returns the negative value `-2147483648`. -/
theorem abs_value_INT_MIN_negative :
    IsInt32 (-2147483648) ∧ abs_value (-2147483648) = -2147483648 ∧
      abs_value (-2147483648) < 0 := by
  decide

/-! ## C2 -/

/-- C2 fails as stated: `subtract(0, INT_MIN)` and `subtract(INT_MIN, 0)` are both
`-2147483648`, although `0 ≠ INT_MIN`. -/
theorem subtract_comm_counterexample :
    IsInt32 0 ∧ IsInt32 (-2147483648) ∧
      subtract 0 (-2147483648) = subtract (-2147483648) 0 ∧ (0 : Int) ≠ -2147483648 := by
  decide

/-- C2, amended: for `int` operands, `subtract(a,b) == subtract(b,a)` holds exactly when
`a == b` or the operands are `2^31` apart. -/
theorem subtract_comm_iff (a b : Int) (ha : IsInt32 a) (hb : IsInt32 b) :
    subtract a b = subtract b a ↔ (a = b ∨ a - b = 2147483648 ∨ b - a = 2147483648) := by
  unfold IsInt32 INT_MIN INT_MAX at ha hb
  unfold subtract wrap32
  omega

theorem subtract_comm_iff_witness :
    IsInt32 7 ∧ IsInt32 3 ∧
      (subtract 7 3 = subtract 3 7 ↔ ((7 : Int) = 3 ∨ (7 : Int) - 3 = 2147483648 ∨
        (3 : Int) - 7 = 2147483648)) :=
  ⟨by decide, by decide, subtract_comm_iff 7 3 (by decide) (by decide)⟩

/-! ## C3 -/

/-- C3 fails as stated: `factorial(17)` and `fibonacci(47)` are negative under 32-bit
wraparound. -/
theorem factorial_fibonacci_negative :
    IsInt32 17 ∧ factorial 17 17 = some (-288522240) ∧ (-288522240 : Int) < 0 ∧
      IsInt32 47 ∧ fibonacci 47 47 = some (-1323752223) ∧ (-1323752223 : Int) < 0 := by
  refine ⟨by decide, by decide, by decide, by decide, ?_, by decide⟩
  simp [fibonacci, fibonacciLoop, wrap32]

/-- C3, amended: `factorial(n)` returns a non-negative value for `0 ≤ n ≤ 16`, and
`fibonacci(n)` returns a non-negative value for `0 ≤ n ≤ 46`. -/
theorem factorial_fibonacci_nonneg (n : Int) (h0 : 0 ≤ n) :
    (n ≤ 16 → (∃ r, factorialReturns n r) ∧ ∀ r, factorialReturns n r → 0 ≤ r) ∧
    (n ≤ 46 → (∃ r, fibonacciReturns n r) ∧ ∀ r, fibonacciReturns n r → 0 ≤ r) := by
  constructor
  · intro h16
    have hv := factorial_eq_int n h0 (by unfold INT_MAX; omega)
    refine ⟨⟨_, _, hv⟩, ?_⟩
    rintro r ⟨f, hf⟩
    rw [factorial_det hf hv]
    exact specFactorial_nonneg_of_le_16 n.toNat (by omega)
  · intro h46
    have hv := fibonacci_eq_int n h0 (by unfold INT_MAX; omega)
    have hle := specFib_le_of_le_46 n.toNat (by omega)
    have hw : wrap32 (specFib n.toNat) = specFib n.toNat := by
      apply wrap32_of_isInt32
      unfold IsInt32 INT_MIN INT_MAX
      omega
    rw [hw] at hv
    refine ⟨⟨_, _, hv⟩, ?_⟩
    rintro r ⟨f, hf⟩
    rw [fibonacci_det hf hv]
    exact Int.natCast_nonneg _

theorem factorial_fibonacci_nonneg_witness :
    (0 : Int) ≤ 5 ∧
    (((5 : Int) ≤ 16 → (∃ r, factorialReturns 5 r) ∧ ∀ r, factorialReturns 5 r → 0 ≤ r) ∧
    ((5 : Int) ≤ 46 → (∃ r, fibonacciReturns 5 r) ∧ ∀ r, fibonacciReturns 5 r → 0 ≤ r)) :=
  ⟨by decide, factorial_fibonacci_nonneg 5 (by decide)⟩

/-! ## C4 -/

/-- C4: `factorial` returns on every `int` input below `INT_MAX`; every negative input
yields `-1`; and whenever `factorial(n)` returns `r`, `r == -1` if and only if `n < 0`. -/
theorem factorial_eq_neg_one_iff (n : Int) (_hn : IsInt32 n) :
    (n < INT_MAX → ∃ r, factorialReturns n r) ∧
    (n < 0 → factorialReturns n (-1)) ∧
    (∀ r, factorialReturns n r → (r = -1 ↔ n < 0)) := by
  refine ⟨fun h => ?_, fun h => ?_, ?_⟩
  · obtain ⟨r, hr⟩ := factorial_terminates n h
    exact ⟨r, _, hr⟩
  · exact ⟨0, by unfold factorial; rw [if_pos h]⟩
  · rintro r ⟨f, hf⟩
    by_cases c1 : n < 0
    · have : factorial f n = some (-1) := by unfold factorial; rw [if_pos c1]
      have e := Option.some.inj (hf.symm.trans this)
      exact ⟨fun _ => c1, fun _ => e⟩
    · refine ⟨fun hr => ?_, fun h => absurd h c1⟩
      exfalso
      by_cases c2 : n = 0 ∨ n = 1
      · have : factorial f n = some 1 := by unfold factorial; rw [if_neg c1, if_pos c2]
        have e := Option.some.inj (hf.symm.trans this)
        omega
      · have hev := factorial_even f n r (by omega) hf
        omega

theorem factorial_eq_neg_one_iff_witness :
    IsInt32 (-1) ∧
    (((-1 : Int) < INT_MAX → ∃ r, factorialReturns (-1) r) ∧
    ((-1 : Int) < 0 → factorialReturns (-1) (-1)) ∧
    (∀ r, factorialReturns (-1) r → (r = -1 ↔ (-1 : Int) < 0))) :=
  ⟨by decide, factorial_eq_neg_one_iff (-1) (by decide)⟩

/-! ## C5 -/

/-- C5: `fibonacci` returns on every `int` input below `INT_MAX`; every negative input
yields `-1`; and whenever `fibonacci(n)` returns `r`, `r == -1` if and only if `n < 0`. -/
theorem fibonacci_eq_neg_one_iff (n : Int) (hn : IsInt32 n) :
    (n < INT_MAX → ∃ r, fibonacciReturns n r) ∧
    (n < 0 → fibonacciReturns n (-1)) ∧
    (∀ r, fibonacciReturns n r → (r = -1 ↔ n < 0)) := by
  have hneg : ∀ f, n < 0 → fibonacci f n = some (-1) := by
    intro f h; unfold fibonacci; rw [if_pos h]
  refine ⟨fun h => ?_, fun h => ⟨0, hneg 0 h⟩, ?_⟩
  · by_cases c1 : n < 0
    · exact ⟨-1, 0, hneg 0 c1⟩
    · exact ⟨_, _, fibonacci_eq_int n (by omega) h⟩
  · rintro r ⟨f, hf⟩
    by_cases c1 : n < 0
    · have e := Option.some.inj (hf.symm.trans (hneg f c1))
      exact ⟨fun _ => c1, fun _ => e⟩
    · refine ⟨fun hr => ?_, fun h => absurd h c1⟩
      exfalso
      have hlt : n < INT_MAX := by
        rcases lt_or_eq_of_le hn.2 with h | h
        · exact h
        · rw [h, fibonacci_INT_MAX] at hf
          cases hf
      have hv := fibonacci_eq_int n (by omega) hlt
      have e := fibonacci_det hf hv
      rw [hr] at e
      have hd := wrap32_eq_neg_one e.symm
      unfold INT_MAX at hlt
      exact specFib_ne_neg_one n.toNat (by omega) hd

theorem fibonacci_eq_neg_one_iff_witness :
    IsInt32 (-1) ∧
    (((-1 : Int) < INT_MAX → ∃ r, fibonacciReturns (-1) r) ∧
    ((-1 : Int) < 0 → fibonacciReturns (-1) (-1)) ∧
    (∀ r, fibonacciReturns (-1) r → (r = -1 ↔ (-1 : Int) < 0))) :=
  ⟨by decide, fibonacci_eq_neg_one_iff (-1) (by decide)⟩

/-! ## C6 -/

/-- C6: for `0 ≤ n ≤ 10`, `factorial(n)` returns the mathematical factorial `n!`, not
truncated, and returns nothing else. -/
theorem factorial_eq_specFactorial (n : Int) (h0 : 0 ≤ n) (h10 : n ≤ 10) :
    factorialReturns n (specFactorial n.toNat) ∧
    ∀ r, factorialReturns n r → r = specFactorial n.toNat := by
  have hv := factorial_eq_int n h0 (by unfold INT_MAX; omega)
  have hle := specFactorial_le_of_le_12 n.toNat (by omega)
  have hw : wrap32 (specFactorial n.toNat) = specFactorial n.toNat := by
    apply wrap32_of_isInt32
    unfold IsInt32 INT_MIN INT_MAX
    omega
  rw [hw] at hv
  refine ⟨⟨_, hv⟩, ?_⟩
  rintro r ⟨f, hf⟩
  exact factorial_det hf hv

theorem factorial_eq_specFactorial_witness :
    (0 : Int) ≤ 5 ∧ (5 : Int) ≤ 10 ∧ specFactorial (5 : Int).toNat = 120 ∧
    (factorialReturns 5 (specFactorial (5 : Int).toNat) ∧
      ∀ r, factorialReturns 5 r → r = specFactorial (5 : Int).toNat) :=
  ⟨by decide, by decide, by decide, factorial_eq_specFactorial 5 (by decide) (by decide)⟩

/-! ## C7 -/

/-- C7: for `0 ≤ n ≤ 46`, the iterative `fibonacci(n)` returns the `n`-th Fibonacci number
of the recursive definition `F(0) = 0`, `F(1) = 1`, `F(k) = F(k-1) + F(k-2)`, not truncated,
and returns nothing else. -/
theorem fibonacci_eq_specFib (n : Int) (h0 : 0 ≤ n) (h46 : n ≤ 46) :
    fibonacciReturns n (specFib n.toNat) ∧
    ∀ r, fibonacciReturns n r → r = specFib n.toNat := by
  have hv := fibonacci_eq_int n h0 (by unfold INT_MAX; omega)
  have hle := specFib_le_of_le_46 n.toNat (by omega)
  have hw : wrap32 (specFib n.toNat) = specFib n.toNat := by
    apply wrap32_of_isInt32
    unfold IsInt32 INT_MIN INT_MAX
    omega
  rw [hw] at hv
  refine ⟨⟨_, hv⟩, ?_⟩
  rintro r ⟨f, hf⟩
  exact fibonacci_det hf hv

theorem fibonacci_eq_specFib_witness :
    (0 : Int) ≤ 10 ∧ (10 : Int) ≤ 46 ∧ specFib (10 : Int).toNat = 55 ∧
    (fibonacciReturns 10 (specFib (10 : Int).toNat) ∧
      ∀ r, fibonacciReturns 10 r → r = specFib (10 : Int).toNat) :=
  ⟨by decide, by decide, by decide, fibonacci_eq_specFib 10 (by decide) (by decide)⟩

/-! ## C8 -/

/-- C8: for `2 ≤ n ≤ 10`, `factorial(n)` and `factorial(n-1)` both return, and
`factorial(n) == multiply(n, factorial(n-1))`. -/
theorem factorial_recurrence (n : Int) (h2 : 2 ≤ n) (h10 : n ≤ 10) :
    (∃ r, factorialReturns n r) ∧ (∃ p, factorialReturns (n - 1) p) ∧
    ∀ r p, factorialReturns n r → factorialReturns (n - 1) p → r = multiply n p := by
  have hv := factorial_eq_int n (by omega) (by unfold INT_MAX; omega)
  have hp := factorial_eq_int (n - 1) (by omega) (by unfold INT_MAX; omega)
  refine ⟨⟨_, _, hv⟩, ⟨_, _, hp⟩, ?_⟩
  rintro r p ⟨f, hf⟩ ⟨g, hg⟩
  rw [factorial_det hf hv, factorial_det hg hp]
  have e : n.toNat = (n - 1).toNat + 1 := by omega
  have hn : n = (((n - 1).toNat + 1 : Nat) : Int) := by omega
  unfold multiply
  rw [mul_comm, wrap32_mul_left, e, specFactorial_succ]
  have harg : (((n - 1).toNat + 1) * specFactorial (n - 1).toNat : Nat)
      = ((specFactorial (n - 1).toNat : Nat) : Int) * n := by
    push_cast
    rw [mul_comm]
    congr 1
    omega
  rw [harg]

theorem factorial_recurrence_witness :
    (2 : Int) ≤ 5 ∧ (5 : Int) ≤ 10 ∧
    ((∃ r, factorialReturns 5 r) ∧ (∃ p, factorialReturns (5 - 1) p) ∧
      ∀ r p, factorialReturns 5 r → factorialReturns (5 - 1) p → r = multiply 5 p) :=
  ⟨by decide, by decide, factorial_recurrence 5 (by decide) (by decide)⟩

/-! ## C9 -/

/-- C9: whenever `fibonacci(n)` returns `r` on an `int` input `n ≥ 2`, the calls
`fibonacci(n-1)` and `fibonacci(n-2)` return as well and `r` is their sum under `add`,
which wraps modulo `2^32`. -/
theorem fibonacci_recurrence (n r : Int) (hn : IsInt32 n) (h2 : 2 ≤ n)
    (h : fibonacciReturns n r) :
    (∃ r1, fibonacciReturns (n - 1) r1) ∧ (∃ r2, fibonacciReturns (n - 2) r2) ∧
    ∀ r1 r2, fibonacciReturns (n - 1) r1 → fibonacciReturns (n - 2) r2 → r = add r1 r2 := by
  obtain ⟨f, hf⟩ := h
  have hlt : n < INT_MAX := by
    rcases lt_or_eq_of_le hn.2 with h | h
    · exact h
    · rw [h, fibonacci_INT_MAX] at hf
      cases hf
  have hlt' := hlt
  unfold INT_MAX at hlt'
  have hv := fibonacci_eq_int n (by omega) hlt
  have h1 := fibonacci_eq_int (n - 1) (by omega) (by unfold INT_MAX; omega)
  have h2' := fibonacci_eq_int (n - 2) (by omega) (by unfold INT_MAX; omega)
  refine ⟨⟨_, _, h1⟩, ⟨_, _, h2'⟩, ?_⟩
  rintro r1 r2 ⟨f1, hf1⟩ ⟨f2, hf2⟩
  rw [fibonacci_det hf hv, fibonacci_det hf1 h1, fibonacci_det hf2 h2']
  have e1 : (n - 1).toNat = (n - 2).toNat + 1 := by omega
  have e : n.toNat = (n - 2).toNat + 2 := by omega
  unfold add
  rw [wrap32_add_wrap32, e, e1, specFib_add_two]
  push_cast
  rfl

theorem fibonacci_recurrence_witness :
    IsInt32 6 ∧ (2 : Int) ≤ 6 ∧ fibonacciReturns 6 8 ∧
    ((∃ r1, fibonacciReturns (6 - 1) r1) ∧ (∃ r2, fibonacciReturns (6 - 2) r2) ∧
      ∀ r1 r2, fibonacciReturns (6 - 1) r1 → fibonacciReturns (6 - 2) r2 → (8 : Int) = add r1 r2) :=
  ⟨by decide, by decide, ⟨6, by decide⟩,
    fibonacci_recurrence 6 8 (by decide) (by decide) ⟨6, by decide⟩⟩

/-! ## C10 -/

/-- C10 fails as stated: on `n = INT_MAX = 2^31 - 1` the loop condition `i <= n` holds for
every value of the wrapping counter, so neither `factorial` nor `fibonacci` returns,
whatever the fuel. -/
theorem factorial_fibonacci_INT_MAX_diverge :
    IsInt32 2147483647 ∧ (∀ fuel, factorial fuel 2147483647 = none) ∧
      (∀ fuel, fibonacci fuel 2147483647 = none) :=
  ⟨by decide, factorial_INT_MAX, fibonacci_INT_MAX⟩

/-- C10, amended: `factorial(n)` and `fibonacci(n)` terminate for every `int` input
`n < 2^31 - 1`, after at most `max(n, 0)` evaluations of the loop condition. -/
theorem factorial_fibonacci_terminate (n : Int) (hn : IsInt32 n) (h : n ≠ INT_MAX) :
    (∃ r, factorial n.toNat n = some r) ∧ (∃ r, fibonacci n.toNat n = some r) := by
  have hlt : n < INT_MAX := lt_of_le_of_ne hn.2 h
  exact ⟨factorial_terminates n hlt, fibonacci_terminates n hlt⟩

theorem factorial_fibonacci_terminate_witness :
    IsInt32 2147483646 ∧ (2147483646 : Int) ≠ INT_MAX ∧
    ((∃ r, factorial (2147483646 : Int).toNat 2147483646 = some r) ∧
      (∃ r, fibonacci (2147483646 : Int).toNat 2147483646 = some r)) :=
  ⟨by decide, by decide, factorial_fibonacci_terminate 2147483646 (by decide) (by decide)⟩

/-! ## Helper lemmas for the algebraic laws -/

theorem wrap32_mul_right (a b : Int) : wrap32 (a * wrap32 b) = wrap32 (a * b) := by
  rw [mul_comm, wrap32_mul_left, mul_comm]

theorem wrap32_add_left (a b : Int) : wrap32 (wrap32 a + b) = wrap32 (a + b) := by
  unfold wrap32
  omega

theorem wrap32_add_right (a b : Int) : wrap32 (a + wrap32 b) = wrap32 (a + b) := by
  unfold wrap32
  omega

/-- The truncating remainder by 2 is zero exactly when the Euclidean one is. -/
theorem tmod_two_eq_zero_iff (x : Int) : Int.tmod x 2 = 0 ↔ x % 2 = 0 := by
  rw [← Int.dvd_iff_tmod_eq_zero, Int.dvd_iff_emod_eq_zero]

/-- The result of `is_even`, in terms of the Euclidean remainder. -/
theorem is_even_eq (x : Int) : is_even x = if x % 2 = 0 then 1 else 0 := by
  unfold is_even
  by_cases h : x % 2 = 0
  · rw [if_pos h, if_pos ((tmod_two_eq_zero_iff x).2 h)]
  · rw [if_neg h, if_neg (fun h' => h ((tmod_two_eq_zero_iff x).1 h'))]

/-- Value of `factorial` on `0 ≤ n ≤ 12`, where `n!` fits in 32 bits. -/
theorem factorial_eq_int_small (n : Int) (h0 : 0 ≤ n) (h12 : n ≤ 12) :
    factorial n.toNat n = some (specFactorial n.toNat : Int) := by
  have hv := factorial_eq_int n h0 (by unfold INT_MAX; omega)
  have hle := specFactorial_le_of_le_12 n.toNat (by omega)
  have hw : wrap32 (specFactorial n.toNat) = specFactorial n.toNat := by
    apply wrap32_of_isInt32
    unfold IsInt32 INT_MIN INT_MAX
    omega
  rw [hw] at hv
  exact hv

theorem specFactorial_ge_self (m : Nat) (h2 : 2 ≤ m) (h10 : m ≤ 10) :
    m ≤ specFactorial m ∧ (3 ≤ m → m < specFactorial m) := by
  interval_cases m <;> decide

/-! ## C11 -/

/-- C11 fails as stated: `factorial(2)` returns `2`, which is not greater than `n = 2`. -/
theorem factorial_two_not_gt :
    (2 : Int) ≤ 2 ∧ (2 : Int) ≤ 10 ∧ factorial 2 2 = some 2 ∧ ¬ ((2 : Int) > 2) := by
  decide

/-- C11, amended: for `2 ≤ n ≤ 10`, `factorial(n)` returns a value `≥ n`, and the value is
`> n` for `3 ≤ n ≤ 10`. -/
theorem factorial_ge_self (n : Int) (h2 : 2 ≤ n) (h10 : n ≤ 10) :
    (∃ r, factorialReturns n r) ∧
    ∀ r, factorialReturns n r → r ≥ n ∧ (3 ≤ n → r > n) := by
  have hv := factorial_eq_int_small n (by omega) (by omega)
  refine ⟨⟨_, _, hv⟩, ?_⟩
  rintro r ⟨f, hf⟩
  rw [factorial_det hf hv]
  obtain ⟨a, b⟩ := specFactorial_ge_self n.toNat (by omega) (by omega)
  constructor
  · omega
  · intro h3
    have := b (by omega)
    omega

theorem factorial_ge_self_witness :
    (2 : Int) ≤ 5 ∧ (5 : Int) ≤ 10 ∧
    ((∃ r, factorialReturns 5 r) ∧
      ∀ r, factorialReturns 5 r → r ≥ 5 ∧ ((3 : Int) ≤ 5 → r > 5)) :=
  ⟨by decide, by decide, factorial_ge_self 5 (by decide) (by decide)⟩

/-! ## C12 -/

/-- C12: for every `int` `a`, `is_even(a) != is_even(a + 1)`, where `a + 1` is computed in
32 bits and wraps from `INT_MAX` to `INT_MIN`. -/
theorem is_even_alternates (a : Int) (_ha : IsInt32 a) :
    is_even a ≠ is_even (wrap32 (a + 1)) := by
  rw [is_even_eq, is_even_eq]
  unfold wrap32
  by_cases h : a % 2 = 0
  · rw [if_pos h, if_neg (by omega)]
    decide
  · rw [if_neg h, if_pos (by omega)]
    decide

theorem is_even_alternates_witness :
    IsInt32 2147483647 ∧ wrap32 (2147483647 + 1) = -2147483648 ∧
      is_even 2147483647 ≠ is_even (wrap32 (2147483647 + 1)) :=
  ⟨by decide, by decide, is_even_alternates 2147483647 (by decide)⟩

/-! ## C13 -/

/-- C13: for all `int` values `a`, `b`, `c`,
`multiply(a, add(b,c)) == add(multiply(a,b), multiply(a,c))` under wraparound. -/
theorem multiply_add_distrib (a b c : Int) (_ha : IsInt32 a) (_hb : IsInt32 b)
    (_hc : IsInt32 c) :
    multiply a (add b c) = add (multiply a b) (multiply a c) := by
  unfold multiply add
  rw [wrap32_mul_right, wrap32_add_wrap32, mul_add]

theorem multiply_add_distrib_witness :
    IsInt32 65536 ∧ IsInt32 40000 ∧ IsInt32 25536 ∧
      multiply 65536 (add 40000 25536) = add (multiply 65536 40000) (multiply 65536 25536) :=
  ⟨by decide, by decide, by decide,
    multiply_add_distrib 65536 40000 25536 (by decide) (by decide) (by decide)⟩

/-! ## C14 -/

/-- C14: for all `int` values `a`, `b`, `c`, `add` and `multiply` are associative under
wraparound. -/
theorem add_multiply_assoc (a b c : Int) (_ha : IsInt32 a) (_hb : IsInt32 b)
    (_hc : IsInt32 c) :
    add (add a b) c = add a (add b c) ∧
    multiply (multiply a b) c = multiply a (multiply b c) := by
  unfold multiply add
  constructor
  · rw [wrap32_add_left, wrap32_add_right, add_assoc]
  · rw [wrap32_mul_left, wrap32_mul_right, mul_assoc]

theorem add_multiply_assoc_witness :
    IsInt32 2147483647 ∧ IsInt32 65536 ∧ IsInt32 (-3) ∧
      (add (add 2147483647 65536) (-3) = add 2147483647 (add 65536 (-3)) ∧
       multiply (multiply 2147483647 65536) (-3)
         = multiply 2147483647 (multiply 65536 (-3))) :=
  ⟨by decide, by decide, by decide,
    add_multiply_assoc 2147483647 65536 (-3) (by decide) (by decide) (by decide)⟩

/-! ## C15 -/

/-- C15: for all `int` values `a`, `b`, `add(a,b) == add(b,a)` and
`multiply(a,b) == multiply(b,a)`. -/
theorem add_multiply_comm (a b : Int) (_ha : IsInt32 a) (_hb : IsInt32 b) :
    add a b = add b a ∧ multiply a b = multiply b a := by
  unfold multiply add
  rw [add_comm, mul_comm]
  exact ⟨rfl, rfl⟩

theorem add_multiply_comm_witness :
    IsInt32 3 ∧ IsInt32 7 ∧ (add 3 7 = add 7 3 ∧ multiply 3 7 = multiply 7 3) :=
  ⟨by decide, by decide, add_multiply_comm 3 7 (by decide) (by decide)⟩

/-! ## C16 -/

/-- C16: for every `int` `a`, `add(a, -a) == 0`, the negation being computed in 32 bits
(so that `-INT_MIN` is `INT_MIN`). -/
theorem add_neg_self (a : Int) (_ha : IsInt32 a) : add a (wrap32 (-a)) = 0 := by
  unfold add wrap32
  omega

theorem add_neg_self_witness :
    IsInt32 (-2147483648) ∧ wrap32 (-(-2147483648)) = -2147483648 ∧
      add (-2147483648) (wrap32 (-(-2147483648))) = 0 :=
  ⟨by decide, by decide, add_neg_self (-2147483648) (by decide)⟩

/-! ## C17 -/

/-- C17: for every `int` `a`, `0` is a two-sided identity of `add`, `1` a two-sided identity
of `multiply`, and `0` is absorbing for `multiply` on both sides. -/
theorem add_multiply_identity (a : Int) (ha : IsInt32 a) :
    add a 0 = a ∧ add 0 a = a ∧ multiply a 1 = a ∧ multiply 1 a = a ∧
    multiply a 0 = 0 ∧ multiply 0 a = 0 := by
  unfold multiply add
  rw [add_zero, zero_add, mul_one, one_mul, mul_zero, zero_mul, wrap32_of_isInt32 ha]
  exact ⟨rfl, rfl, rfl, rfl, by decide, by decide⟩

theorem add_multiply_identity_witness :
    IsInt32 42 ∧
    (add 42 0 = 42 ∧ add 0 42 = 42 ∧ multiply 42 1 = 42 ∧ multiply 1 42 = 42 ∧
      multiply 42 0 = 0 ∧ multiply 0 42 = 0) :=
  ⟨by decide, add_multiply_identity 42 (by decide)⟩

/-! ## C18 -/

/-- C18: whenever the unbounded sum, difference or product of two `int` values lies in
`[-2^31, 2^31 - 1]`, `add`, `subtract` or `multiply` returns exactly that value; this is
the case for all operands in `[-100, 100]` (`add`, `subtract`) and `[-50, 50]`
(`multiply`). -/
theorem add_subtract_multiply_exact (a b : Int) (_ha : IsInt32 a) (_hb : IsInt32 b) :
    (IsInt32 (a + b) → add a b = a + b) ∧
    (IsInt32 (a - b) → subtract a b = a - b) ∧
    (IsInt32 (a * b) → multiply a b = a * b) ∧
    (-100 ≤ a ∧ a ≤ 100 ∧ -100 ≤ b ∧ b ≤ 100 →
      add a b = a + b ∧ subtract a b = a - b) ∧
    (-50 ≤ a ∧ a ≤ 50 ∧ -50 ≤ b ∧ b ≤ 50 → multiply a b = a * b) := by
  refine ⟨wrap32_of_isInt32, wrap32_of_isInt32, wrap32_of_isInt32, ?_, ?_⟩
  · rintro ⟨h1, h2, h3, h4⟩
    constructor
    · apply wrap32_of_isInt32
      unfold IsInt32 INT_MIN INT_MAX
      omega
    · apply wrap32_of_isInt32
      unfold IsInt32 INT_MIN INT_MAX
      omega
  · rintro ⟨h1, h2, h3, h4⟩
    apply wrap32_of_isInt32
    have p1 : 0 ≤ (a + 50) * (b + 50) := mul_nonneg (by omega) (by omega)
    have p2 : 0 ≤ (50 - a) * (50 - b) := mul_nonneg (by omega) (by omega)
    have p3 : 0 ≤ (a + 50) * (50 - b) := mul_nonneg (by omega) (by omega)
    have p4 : 0 ≤ (50 - a) * (b + 50) := mul_nonneg (by omega) (by omega)
    unfold IsInt32 INT_MIN INT_MAX
    constructor
    · nlinarith
    · nlinarith

theorem add_subtract_multiply_exact_witness :
    IsInt32 (-3) ∧ IsInt32 (-4) ∧ multiply (-3) (-4) = 12 ∧
    ((IsInt32 (-3 + -4) → add (-3) (-4) = -3 + -4) ∧
    (IsInt32 (-3 - -4) → subtract (-3) (-4) = -3 - -4) ∧
    (IsInt32 (-3 * -4) → multiply (-3) (-4) = -3 * -4) ∧
    (-100 ≤ (-3 : Int) ∧ (-3 : Int) ≤ 100 ∧ -100 ≤ (-4 : Int) ∧ (-4 : Int) ≤ 100 →
      add (-3) (-4) = -3 + -4 ∧ subtract (-3) (-4) = -3 - -4) ∧
    (-50 ≤ (-3 : Int) ∧ (-3 : Int) ≤ 50 ∧ -50 ≤ (-4 : Int) ∧ (-4 : Int) ≤ 50 →
      multiply (-3) (-4) = -3 * -4)) :=
  ⟨by decide, by decide, by decide,
    add_subtract_multiply_exact (-3) (-4) (by decide) (by decide)⟩

/-! ## C19 -/

/-- C19: for every `int` `a`, `abs_value(a) == abs_value(-a)`, the negation being computed
in 32 bits (so that `-INT_MIN` is `INT_MIN`). -/
theorem abs_value_neg (a : Int) (ha : IsInt32 a) :
    abs_value a = abs_value (wrap32 (-a)) := by
  unfold IsInt32 INT_MIN INT_MAX at ha
  unfold abs_value wrap32
  split <;> split <;> omega

theorem abs_value_neg_witness :
    IsInt32 5 ∧ abs_value 5 = 5 ∧ abs_value 5 = abs_value (wrap32 (-5)) :=
  ⟨by decide, by decide, abs_value_neg 5 (by decide)⟩

/-! ## C20 -/

/-- C20: for every `int` `a`, `INT_MIN` included, `abs_value(a) >= a`. -/
theorem abs_value_ge_self (a : Int) (ha : IsInt32 a) : abs_value a ≥ a := by
  unfold IsInt32 INT_MIN INT_MAX at ha
  unfold abs_value wrap32
  split <;> omega

theorem abs_value_ge_self_witness :
    IsInt32 (-2147483648) ∧ abs_value (-2147483648) ≥ -2147483648 :=
  ⟨by decide, abs_value_ge_self (-2147483648) (by decide)⟩

/-! ## Helper lemmas for the order laws -/

/-- Value of `fibonacci` on `0 ≤ n ≤ 46`, where `F(n)` fits in 32 bits. -/
theorem fibonacci_eq_int_small (n : Int) (h0 : 0 ≤ n) (h46 : n ≤ 46) :
    fibonacci n.toNat n = some (specFib n.toNat : Int) := by
  have hv := fibonacci_eq_int n h0 (by unfold INT_MAX; omega)
  have hle := specFib_le_of_le_46 n.toNat (by omega)
  have hw : wrap32 (specFib n.toNat) = specFib n.toNat := by
    apply wrap32_of_isInt32
    unfold IsInt32 INT_MIN INT_MAX
    omega
  rw [hw] at hv
  exact hv

/-- The Fibonacci numbers are non-decreasing. -/
theorem specFib_le_succ : ∀ m : Nat, specFib m ≤ specFib (m + 1)
  | 0 => by decide
  | m + 1 => by
    rw [specFib_add_two]
    omega

/-! ## C21 -/

/-- C21: for all `int` values `a`, `b`, `max_value(a,b)` is `≥ a`, `≥ b`, equal to `a` or
`b`, and equal to `max_value(b,a)`. -/
theorem max_value_laws (a b : Int) (_ha : IsInt32 a) (_hb : IsInt32 b) :
    max_value a b ≥ a ∧ max_value a b ≥ b ∧
    (max_value a b = a ∨ max_value a b = b) ∧ max_value a b = max_value b a := by
  unfold max_value
  refine ⟨?_, ?_, ?_, ?_⟩
  · split <;> omega
  · split <;> omega
  · split <;> omega
  · split <;> split <;> omega

theorem max_value_laws_witness :
    IsInt32 5 ∧ IsInt32 3 ∧ max_value 5 3 = 5 ∧
    (max_value 5 3 ≥ 5 ∧ max_value 5 3 ≥ 3 ∧
      (max_value 5 3 = 5 ∨ max_value 5 3 = 3) ∧ max_value 5 3 = max_value 3 5) :=
  ⟨by decide, by decide, by decide, max_value_laws 5 3 (by decide) (by decide)⟩

/-! ## C22 -/

/-- C22: for all `int` values `a`, `b`, `min_value(a,b)` is `≤ a`, `≤ b`, equal to `a` or
`b`, and equal to `min_value(b,a)`. -/
theorem min_value_laws (a b : Int) (_ha : IsInt32 a) (_hb : IsInt32 b) :
    min_value a b ≤ a ∧ min_value a b ≤ b ∧
    (min_value a b = a ∨ min_value a b = b) ∧ min_value a b = min_value b a := by
  unfold min_value
  refine ⟨?_, ?_, ?_, ?_⟩
  · split <;> omega
  · split <;> omega
  · split <;> omega
  · split <;> split <;> omega

theorem min_value_laws_witness :
    IsInt32 (-2) ∧ IsInt32 (-5) ∧ min_value (-2) (-5) = -5 ∧
    (min_value (-2) (-5) ≤ -2 ∧ min_value (-2) (-5) ≤ -5 ∧
      (min_value (-2) (-5) = -2 ∨ min_value (-2) (-5) = -5) ∧
      min_value (-2) (-5) = min_value (-5) (-2)) :=
  ⟨by decide, by decide, by decide, min_value_laws (-2) (-5) (by decide) (by decide)⟩

/-! ## C23 -/

/-- C23: for every `int` `x`, `is_even(x)` and `is_positive(x)` are `0` or `1`;
`is_even(x)` is `1` when `2` divides `x` and `0` otherwise; `is_positive(x)` is `1` when
`x > 0` and `0` when `x ≤ 0`. -/
theorem predicates_match (x : Int) (_hx : IsInt32 x) :
    (is_even x = 0 ∨ is_even x = 1) ∧ (is_positive x = 0 ∨ is_positive x = 1) ∧
    (2 ∣ x → is_even x = 1) ∧ (¬ 2 ∣ x → is_even x = 0) ∧
    (x > 0 → is_positive x = 1) ∧ (x ≤ 0 → is_positive x = 0) := by
  rw [is_even_eq]
  unfold is_positive
  refine ⟨?_, ?_, ?_, ?_, ?_, ?_⟩
  · split <;> simp
  · split <;> simp
  · intro h
    rw [if_pos (by omega)]
  · intro h
    rw [if_neg (by omega)]
  · intro h
    rw [if_pos h]
  · intro h
    rw [if_neg (by omega)]

theorem predicates_match_witness :
    IsInt32 (-2) ∧ is_even (-2) = 1 ∧ is_positive (-2) = 0 ∧
    ((is_even (-2) = 0 ∨ is_even (-2) = 1) ∧ (is_positive (-2) = 0 ∨ is_positive (-2) = 1) ∧
    (2 ∣ (-2 : Int) → is_even (-2) = 1) ∧ (¬ 2 ∣ (-2 : Int) → is_even (-2) = 0) ∧
    ((-2 : Int) > 0 → is_positive (-2) = 1) ∧ ((-2 : Int) ≤ 0 → is_positive (-2) = 0)) :=
  ⟨by decide, by decide, by decide, predicates_match (-2) (by decide)⟩

/-! ## C24 -/

/-- C24: for `1 ≤ n ≤ 20`, `fibonacci(n)` and `fibonacci(n-1)` both return and
`fibonacci(n) >= fibonacci(n-1)`. -/
theorem fibonacci_monotone (n : Int) (h1 : 1 ≤ n) (h20 : n ≤ 20) :
    (∃ r, fibonacciReturns n r) ∧ (∃ p, fibonacciReturns (n - 1) p) ∧
    ∀ r p, fibonacciReturns n r → fibonacciReturns (n - 1) p → r ≥ p := by
  have hv := fibonacci_eq_int_small n (by omega) (by omega)
  have hp := fibonacci_eq_int_small (n - 1) (by omega) (by omega)
  refine ⟨⟨_, _, hv⟩, ⟨_, _, hp⟩, ?_⟩
  rintro r p ⟨f, hf⟩ ⟨g, hg⟩
  rw [fibonacci_det hf hv, fibonacci_det hg hp]
  have e : n.toNat = (n - 1).toNat + 1 := by omega
  rw [e]
  have := specFib_le_succ (n - 1).toNat
  omega

theorem fibonacci_monotone_witness :
    (1 : Int) ≤ 2 ∧ (2 : Int) ≤ 20 ∧
    ((∃ r, fibonacciReturns 2 r) ∧ (∃ p, fibonacciReturns (2 - 1) p) ∧
      ∀ r p, fibonacciReturns 2 r → fibonacciReturns (2 - 1) p → r ≥ p) :=
  ⟨by decide, by decide, fibonacci_monotone 2 (by decide) (by decide)⟩

/-! ## C25 -/

/-- C25: `factorial` is exact on `0 ≤ n ≤ 12`, beyond the documented `[0, 10]`:
`factorial(11) == 39916800 == 11!` and `factorial(12) == 479001600 == 12!`; at `n = 13`
the 32-bit product wraps to `1932053504`, which differs from `13! = 6227020800`. -/
theorem factorial_exact_up_to_12 :
    (∀ n : Int, 0 ≤ n → n ≤ 12 → factorial n.toNat n = some (specFactorial n.toNat : Int)) ∧
    factorial 11 11 = some 39916800 ∧ specFactorial 11 = 39916800 ∧
    factorial 12 12 = some 479001600 ∧ specFactorial 12 = 479001600 ∧
    factorial 13 13 = some 1932053504 ∧ specFactorial 13 = 6227020800 ∧
    factorial 13 13 ≠ some (specFactorial 13 : Int) := by
  refine ⟨factorial_eq_int_small, ?_, ?_, ?_, ?_, ?_, ?_, ?_⟩ <;> decide

end MathUtils
